import Mathlib

set_option maxRecDepth 8000
set_option maxHeartbeats 2000000

/-!
Shallow embedding of `src/index.tsx` (simple-real-time-voice-analytics):
the PCM codec helpers (`encode`, `createBlob`, `decode`, `decodeAudioData`),
the turn-segmented keyword counter (`countPracticeInText` and the
`committedCountRef` / `currentTurnTextRef` update logic), and the session
callback state machine (`onopen` / `onmessage` / `onclose` / `onerror` /
`stopSession`).  Audio samples are modelled as exact rationals: every
floating-point operation the source performs on them (multiply a float32 by
32768, truncate to an integer, divide a 16-bit integer by 32768) is exact in
the source's float64 arithmetic, so the rational model is faithful.
-/

namespace VoiceAnalytics

/-! ## Base64 (the source's `encode` = `btoa` over the byte string, and
`decode` = `atob` back to bytes).  Bytes are naturals below 256. -/

def b64Alphabet : List Char :=
  "ABCDEFGHIJKLMNOPQRSTUVWXYZabcdefghijklmnopqrstuvwxyz0123456789+/".toList

def b64Char (n : Nat) : Char := b64Alphabet.getD n 'A'

def b64Index (c : Char) : Option Nat := b64Alphabet.findIdx? (· = c)

/-- The source's `encode(bytes)`: builds the binary string byte by byte and
applies `btoa`, i.e. standard base64 with `=` padding. -/
def encode : List Nat → List Char
  | [] => []
  | [a] => [b64Char (a / 4), b64Char (a % 4 * 16), '=', '=']
  | [a, b] => [b64Char (a / 4), b64Char (a % 4 * 16 + b / 16), b64Char (b % 16 * 4), '=']
  | a :: b :: c :: rest =>
    b64Char (a / 4) :: b64Char (a % 4 * 16 + b / 16) ::
      b64Char (b % 16 * 4 + c / 64) :: b64Char (c % 64) :: encode rest

/-- The source's `decode(base64)`: `atob` (which throws on input that is not
valid base64, modelled as `none`) followed by reading the char codes back
into a byte array. -/
def decode : List Char → Option (List Nat)
  | [] => some []
  | c1 :: c2 :: c3 :: c4 :: rest =>
    if c3 = '=' ∧ c4 = '=' ∧ rest = [] then
      match b64Index c1, b64Index c2 with
      | some s1, some s2 => some [s1 * 4 + s2 / 16]
      | _, _ => none
    else if c4 = '=' ∧ rest = [] then
      match b64Index c1, b64Index c2, b64Index c3 with
      | some s1, some s2, some s3 => some [s1 * 4 + s2 / 16, s2 % 16 * 16 + s3 / 4]
      | _, _, _ => none
    else
      match b64Index c1, b64Index c2, b64Index c3, b64Index c4, decode rest with
      | some s1, some s2, some s3, some s4, some bs =>
        some ([s1 * 4 + s2 / 16, s2 % 16 * 16 + s3 / 4, s3 % 4 * 64 + s4] ++ bs)
      | _, _, _, _, _ => none
  | _ => none

/-! ## 16-bit PCM conversions -/

/-- JavaScript number-to-integer truncation (toward zero), on exact rationals. -/
def jsTrunc (x : ℚ) : Int := if 0 ≤ x then ⌊x⌋ else ⌈x⌉

/-- The JavaScript `ToInt16` conversion performed by an `Int16Array` element
store: truncate toward zero, wrap modulo 2^16, reinterpret as signed. -/
def toInt16 (x : ℚ) : Int :=
  let m := jsTrunc x % 65536
  if m < 32768 then m else m - 65536

/-- The per-sample conversion inside `createBlob`: `int16[i] = data[i] * 32768`. -/
def encodeSample (s : ℚ) : Int := toInt16 (s * 32768)

/-- Little-endian byte view of an `Int16Array` buffer (`new Uint8Array(int16.buffer)`). -/
def int16ToBytes : List Int → List Nat
  | [] => []
  | v :: rest =>
    let u := (v % 65536).toNat
    u % 256 :: u / 256 :: int16ToBytes rest

/-- Reinterpret an unsigned 16-bit value as signed. -/
def toSigned16 (u : Nat) : Int := if u < 32768 then (u : Int) else (u : Int) - 65536

/-- The `new Int16Array(data.buffer)` view in `decodeAudioData`: consecutive
little-endian byte pairs read back as signed 16-bit values.  (The constructor
itself throws on odd byte length; that check lives in `decodeAudioData`.) -/
def bytesToInt16 : List Nat → List Int
  | b0 :: b1 :: rest => toSigned16 (b0 + 256 * b1) :: bytesToInt16 rest
  | _ => []

/-- The wire value produced by `createBlob`: base64 `data` plus `mimeType`. -/
structure BlobModel where
  data : List Char
  mimeType : String
deriving DecidableEq

/-- The source's `createBlob(data)`: scale each sample by 32768 into an
`Int16Array` (JS `ToInt16` store), view the buffer as bytes (little-endian),
base64-encode, and tag with the fixed mime descriptor. -/
def createBlob (data : List ℚ) : BlobModel :=
  { data := encode (int16ToBytes (data.map encodeSample)),
    mimeType := "audio/pcm;rate=16000" }

/-- The failure modes of `decodeAudioData`: `rangeError` is the JS
`RangeError` thrown by `new Int16Array(buffer)` on odd byte length;
`notSupported` is the Web Audio `NotSupportedError` thrown by
`ctx.createBuffer` when the (truncated) frame count is zero or the channel
count is invalid. -/
inductive DecodeErr where
  | rangeError
  | notSupported
deriving DecidableEq

/-- The source's `decodeAudioData(data, ctx, sampleRate, numChannels)`:
view the bytes as `Int16Array` (throws on odd length), compute
`frameCount = dataInt16.length / numChannels` (a JS fractional division),
allocate a buffer whose length is the WebIDL `unsigned long` truncation of
`frameCount` (throws when it is zero), then fill each channel with
`dataInt16[i * numChannels + channel] / 32768`; the out-of-bounds writes a
fractional `frameCount` would produce are silently ignored by the typed
array, so each channel holds exactly `⌊dataInt16.length / numChannels⌋`
samples.  (`createBuffer`'s upper channel-count cap of 32 is not modelled;
the source only ever passes `numChannels = 1`.) -/
def decodeAudioData (bytes : List Nat) (numChannels : Nat) :
    Except DecodeErr (List (List ℚ)) :=
  if bytes.length % 2 ≠ 0 then .error .rangeError
  else
    let ints := bytesToInt16 bytes
    let bufLen := ints.length / numChannels
    if bufLen = 0 then .error .notSupported
    else .ok ((List.range numChannels).map (fun ch =>
      (List.range bufLen).map (fun i => ((ints.getD (i * numChannels + ch) 0 : Int) : ℚ) / 32768)))

/-! ## The keyword counter (`countPracticeInText`)

The source counts matches of the regex `/\bpractice\b/gi`.  The pattern
`practice` has no nonempty proper border, even case-insensitively (no proper
prefix of it equals a suffix), so successive matches of the global scan can
never overlap and the regex's non-overlapping left-to-right match count
equals the number of positions at which the word-boundary-delimited,
case-insensitive pattern matches.  The scan below counts exactly those
positions. -/

/-- JS `\w`: ASCII letters, digits and underscore. -/
def isWordChar (c : Char) : Bool := c.isAlpha || c.isDigit || c = '_'

/-- The target keyword of the regex, lowercased. -/
def kw : List Char := ['p', 'r', 'a', 'c', 't', 'i', 'c', 'e']

/-- Case-insensitively strip `pat` from the front of `l`; `some rest` on match. -/
def stripCI : List Char → List Char → Option (List Char)
  | [], l => some l
  | _ :: _, [] => none
  | p :: ps, c :: cs => if c.toLower = p then stripCI ps cs else none

/-- A `\b` word boundary holds against a neighbouring character (or the
string edge, `none`). -/
def boundaryOk : Option Char → Bool
  | none => true
  | some c => !isWordChar c

/-- Count the positions where `/\bpractice\b/i` matches, scanning left to
right; `prev` is the character immediately before the current position. -/
def countAux : Option Char → List Char → Nat
  | _, [] => 0
  | prev, c :: cs =>
    (match (if boundaryOk prev then stripCI kw (c :: cs) else none) with
     | some rest => if boundaryOk rest.head? then 1 else 0
     | none => 0) + countAux (some c) cs

/-- The source's `countPracticeInText(text)`: the number of matches of
`/\bpractice\b/gi` in `text` (0 when there are none). -/
def countPracticeInText (text : String) : Nat := countAux none text.data

instance {ε α : Type} [DecidableEq ε] [DecidableEq α] : DecidableEq (Except ε α) :=
  fun x y =>
  match x, y with
  | .ok a, .ok b =>
    if h : a = b then .isTrue (congrArg Except.ok h)
    else .isFalse (fun hh => h (Except.ok.inj hh))
  | .error a, .error b =>
    if h : a = b then .isTrue (congrArg Except.error h)
    else .isFalse (fun hh => h (Except.error.inj hh))
  | .ok _, .error _ => .isFalse (fun hh => Except.noConfusion hh)
  | .error _, .ok _ => .isFalse (fun hh => Except.noConfusion hh)

/-! ## The application state machine

`AppState` collects the component state and refs of the `App` component:
the React state (`isRecording`, `practiceCount`, `transcript`, `error`),
the session and audio refs (`null` modelled as `false`/`none`), and the
counting refs.  `graphConnected` records whether the script processor is
connected into the input audio graph (true between the `onopen` attach and
the `stopSession` disconnect), which is the condition for `onaudioprocess`
frames to fire and be sent. -/

structure AppState where
  isRecording : Bool
  practiceCount : Nat
  transcript : String
  error : Option String
  sessionRef : Option Nat
  mediaStreamRef : Bool
  inputCtxRef : Bool
  outputCtxRef : Bool
  sourceRef : Bool
  processorRef : Bool
  graphConnected : Bool
  committedCount : Nat
  currentTurnText : String
deriving DecidableEq

/-- The freshly-mounted component: all refs null, counts zero, no error. -/
def initState : AppState :=
  { isRecording := false, practiceCount := 0, transcript := "", error := none,
    sessionRef := none, mediaStreamRef := false, inputCtxRef := false,
    outputCtxRef := false, sourceRef := false, processorRef := false,
    graphConnected := false, committedCount := 0, currentTurnText := "" }

/-- The synchronous setup of `startSession` before any callback fires:
clear the error, create the two audio contexts, acquire the microphone
stream, store the pending session promise.  Counters and transcript are not
reset. -/
def startSession (s : AppState) (sid : Nat) : AppState :=
  { s with error := none, inputCtxRef := true, outputCtxRef := true,
           mediaStreamRef := true, sessionRef := some sid }

/-- The state right after a fresh mount followed by `startSession`. -/
def startedState : AppState := startSession initState 0

/-- An inbound `LiveServerMessage`, restricted to the fields `onmessage`
reads: `serverContent.inputTranscription.text`, `serverContent.turnComplete`,
and the first part's inline audio data. -/
structure Msg where
  inputTranscription : Option String
  turnComplete : Bool
  audioData : Option (List Char)
deriving DecidableEq

/-- Externally-visible effects of a callback: an outbound
`sendRealtimeInput({media})`, a scheduled playback, and the two effects the
spec mentions but the source never performs, kept so their absence is
expressible: a `SessionNotReady` signal (modelled from the spec, no source
emission site) and an explicit close of the remote session handle (no source
call site). -/
inductive Out where
  | send (b : BlobModel)
  | play (channels : List (List ℚ))
  | signalSessionNotReady
  | closeSession
deriving DecidableEq

/-- Events delivered to the component: the four session callbacks, an
`onaudioprocess` frame from the capture graph, and the stop button. -/
inductive Ev where
  | openEvt
  | msg (m : Msg)
  | closeEvt
  | errorEvt
  | frame (data : List ℚ)
  | stop
deriving DecidableEq

/-- The last-300-characters window `s.slice(-300)` used for the transcript
preview. -/
def sliceLast300 (s : String) : String := ⟨s.data.drop (s.data.length - 300)⟩

/-- The `inputTranscription` branch of `onmessage`: append the delta to the
turn buffer, recompute the reported count, and truncate the transcript
preview. -/
def handleDelta (s : AppState) (text : String) : AppState :=
  let turn := s.currentTurnText ++ text
  { s with currentTurnText := turn,
           practiceCount := s.committedCount + countPracticeInText turn,
           transcript := sliceLast300 (s.transcript ++ text) }

/-- The `turnComplete` branch of `onmessage`: commit the turn's count and
reset the buffer. -/
def handleTurnComplete (s : AppState) : AppState :=
  { s with committedCount := s.committedCount + countPracticeInText s.currentTurnText,
           currentTurnText := "" }

/-- The state change of the `onmessage` callback: transcription first, then
the turn-complete commit.  The audio part never mutates component state. -/
def msgState (s : AppState) (m : Msg) : AppState :=
  let s1 := match m.inputTranscription with
            | some t => handleDelta s t
            | none => s
  if m.turnComplete then handleTurnComplete s1 else s1

/-- The effect of the audio part of `onmessage`: `decode` (`atob`) followed
by `decodeAudioData` at channel count 1, then playback scheduling.  A decode
failure rejects the async callback (after the transcript state was already
updated), so playback of that chunk is skipped and nothing else happens;
`outputCtx` is a captured local that is never null, so there is no state
condition. -/
def msgOuts (m : Msg) : List Out :=
  match m.audioData with
  | none => []
  | some b64 =>
    match decode b64 with
    | none => []
    | some bytes =>
      match decodeAudioData bytes 1 with
      | .error _ => []
      | .ok chans => [Out.play chans]

/-- The `onmessage` callback. -/
def stepMsg (s : AppState) (m : Msg) : AppState × List Out :=
  (msgState s m, msgOuts m)

/-- The `stopSession` teardown: stop the microphone tracks, disconnect the
audio nodes when both refs are set, close both contexts, null every ref,
flush the in-flight turn into the committed count, clear the recording flag.
The session ref is not touched and the remote session is never closed. -/
def stopSession (s : AppState) : AppState :=
  { s with mediaStreamRef := false,
           graphConnected := if s.sourceRef && s.processorRef then false else s.graphConnected,
           inputCtxRef := false, outputCtxRef := false,
           sourceRef := false, processorRef := false,
           committedCount := s.committedCount + countPracticeInText s.currentTurnText,
           currentTurnText := "",
           isRecording := false }

/-- One event step of the component.  `onopen` attaches the capture graph;
a `frame` fires a send only while the graph is connected (the processor is
created and connected only inside `onopen`, and `stopSession` disconnects
it); `onclose` and `onerror` only touch the flags shown. -/
def step (s : AppState) : Ev → AppState × List Out
  | .openEvt =>
    ({ s with isRecording := true, sourceRef := true, processorRef := true,
              graphConnected := true }, [])
  | .msg m => stepMsg s m
  | .closeEvt => ({ s with isRecording := false }, [])
  | .errorEvt =>
    ({ s with error := some "Connection error detected.", isRecording := false }, [])
  | .frame d => if s.graphConnected then (s, [Out.send (createBlob d)]) else (s, [])
  | .stop => (stopSession s, [])

/-- Run a sequence of events, discarding outputs. -/
def run (s : AppState) : List Ev → AppState
  | [] => s
  | e :: es => run (step s e).1 es

/-- Run a sequence of events, collecting outputs in order. -/
def runOut (s : AppState) : List Ev → AppState × List Out
  | [] => (s, [])
  | e :: es =>
    let p := step s e
    let q := runOut p.1 es
    (q.1, p.2 ++ q.2)

/-- A transcript-delta-only message. -/
def deltaMsg (t : String) : Msg := { inputTranscription := some t, turnComplete := false, audioData := none }

/-- A turn-complete-only message. -/
def tcMsg : Msg := { inputTranscription := none, turnComplete := true, audioData := none }

/-- The event sequence of one full turn: its deltas then the turn-complete. -/
def turnEvents (ds : List String) : List Ev :=
  ds.map (fun t => Ev.msg (deltaMsg t)) ++ [Ev.msg tcMsg]

/-- The event sequence of a list of completed turns. -/
def turnsEvents : List (List String) → List Ev
  | [] => []
  | ds :: rest => turnEvents ds ++ turnsEvents rest

/-- Concatenation of a list of delta strings. -/
def concatStr : List String → String
  | [] => ""
  | t :: ts => t ++ concatStr ts

/-- The reported-count invariant of `CountState`: the rendered
`practiceCount` equals `committed + occurrences(turnBuffer)`. -/
def Inv (s : AppState) : Prop :=
  s.practiceCount = s.committedCount + countPracticeInText s.currentTurnText

/-! ## Helper lemmas -/

theorem str_empty_append (x : String) : "" ++ x = x := by
  cases x with
  | mk l => rfl

theorem str_append_empty (x : String) : x ++ "" = x := by
  cases x with
  | mk l => exact congrArg String.mk (List.append_nil l)

theorem str_append_assoc (a b c : String) : a ++ b ++ c = a ++ (b ++ c) := by
  cases a with
  | mk la =>
    cases b with
    | mk lb =>
      cases c with
      | mk lc => exact congrArg String.mk (List.append_assoc la lb lc)

theorem str_data_append (a b : String) : (a ++ b).data = a.data ++ b.data := by
  cases a with
  | mk la =>
    cases b with
    | mk lb => rfl

@[simp] theorem countPractice_empty : countPracticeInText "" = 0 := rfl

theorem run_append (s : AppState) (a b : List Ev) :
    run s (a ++ b) = run (run s a) b := by
  induction a generalizing s with
  | nil => rfl
  | cons e es ih => simpa [run] using ih (step s e).1

/-- One delta-only message step. -/
theorem step_delta (s : AppState) (t : String) :
    step s (Ev.msg (deltaMsg t)) = (handleDelta s t, []) := rfl

/-- One turn-complete-only message step. -/
theorem step_tc (s : AppState) :
    step s (Ev.msg tcMsg) = (handleTurnComplete s, []) := rfl

/-- A run of delta-only messages never changes the committed count. -/
theorem runDeltas_committed (ds : List String) (s : AppState) :
    (run s (ds.map (fun t => Ev.msg (deltaMsg t)))).committedCount = s.committedCount := by
  induction ds generalizing s with
  | nil => rfl
  | cons t ts ih => simpa [run, step_delta] using ih (handleDelta s t)

/-- A run of delta-only messages appends the deltas to the turn buffer. -/
theorem runDeltas_turn (ds : List String) (s : AppState) :
    (run s (ds.map (fun t => Ev.msg (deltaMsg t)))).currentTurnText
      = s.currentTurnText ++ concatStr ds := by
  induction ds generalizing s with
  | nil => simp [run, concatStr, str_append_empty]
  | cons t ts ih =>
    simp only [List.map_cons, run, step_delta]
    rw [ih (handleDelta s t)]
    show s.currentTurnText ++ t ++ concatStr ts = _
    rw [str_append_assoc]
    rfl

/-- After at least one delta, the rendered count is the committed count at
the start plus the occurrences in the whole accumulated buffer. -/
theorem runDeltas_count (ds : List String) (s : AppState) (hne : ds ≠ []) :
    (run s (ds.map (fun t => Ev.msg (deltaMsg t)))).practiceCount
      = s.committedCount + countPracticeInText (s.currentTurnText ++ concatStr ds) := by
  induction ds generalizing s with
  | nil => exact absurd rfl hne
  | cons t ts ih =>
    simp only [List.map_cons, run, step_delta]
    cases ts with
    | nil =>
      simp [run, handleDelta, concatStr, str_append_empty]
    | cons t2 ts2 =>
      rw [ih (handleDelta s t) (by simp)]
      show (handleDelta s t).committedCount
            + countPracticeInText (s.currentTurnText ++ t ++ concatStr (t2 :: ts2)) = _
      rw [str_append_assoc]
      rfl

/-- Every output the `onmessage` callback can emit is a playback. -/
theorem msgOuts_play (m : Msg) (o : Out) (h : o ∈ msgOuts m) : ∃ ch, o = Out.play ch := by
  obtain ⟨it, tc, ad⟩ := m
  cases ad with
  | none => simp [msgOuts] at h
  | some b64 =>
    simp only [msgOuts] at h
    rcases hd : decode b64 with _ | bytes <;> rw [hd] at h
    · simp at h
    · have h2 : o ∈ (match decodeAudioData bytes 1 with
        | Except.error _ => ([] : List Out)
        | Except.ok chans => [Out.play chans]) := h
      rcases hk : decodeAudioData bytes 1 with e' | ch <;> rw [hk] at h2
      · simp at h2
      · simp at h2
        exact ⟨ch, h2⟩

/-- Every output the step relation can emit is a send or a playback: the
source has no `SessionNotReady` signal and never closes the remote session. -/
theorem step_out_cases (s : AppState) (e : Ev) (o : Out) (h : o ∈ (step s e).2) :
    (∃ b, o = Out.send b) ∨ (∃ ch, o = Out.play ch) := by
  cases e with
  | openEvt => simp [step] at h
  | closeEvt => simp [step] at h
  | errorEvt => simp [step] at h
  | stop => simp [step] at h
  | frame d =>
    by_cases hg : s.graphConnected
    · simp [step, hg] at h
      exact Or.inl ⟨_, h⟩
    · simp [step, hg] at h
  | msg m => exact Or.inr (msgOuts_play m o h)

/-- Events other than `openEvt` keep the capture graph detached. -/
theorem step_graph_off (s : AppState) (e : Ev) (hne : e ≠ Ev.openEvt)
    (hg : s.graphConnected = false) : (step s e).1.graphConnected = false := by
  cases e with
  | openEvt => exact absurd rfl hne
  | closeEvt => exact hg
  | errorEvt => exact hg
  | stop => simp [step, stopSession, hg]
  | frame d => simp [step, hg]
  | msg m =>
    show (msgState s m).graphConnected = false
    unfold msgState
    rcases m.inputTranscription with _ | t <;>
      rcases m.turnComplete <;>
      simp [handleDelta, handleTurnComplete, hg]

/-- While the graph is detached, a step emits only playbacks. -/
theorem step_no_send (s : AppState) (e : Ev) (hg : s.graphConnected = false)
    (o : Out) (h : o ∈ (step s e).2) : ∃ ch, o = Out.play ch := by
  cases e with
  | openEvt => simp [step] at h
  | closeEvt => simp [step] at h
  | errorEvt => simp [step] at h
  | stop => simp [step] at h
  | frame d => simp [step, hg] at h
  | msg m => exact msgOuts_play m o h

/-- Every event preserves the reported-count invariant. -/
theorem inv_step (s : AppState) (e : Ev) (h : Inv s) : Inv (step s e).1 := by
  cases e with
  | openEvt => exact h
  | closeEvt => exact h
  | errorEvt => exact h
  | frame d =>
    cases hg : s.graphConnected <;> simp only [step, hg] <;> exact h
  | stop =>
    show s.practiceCount
      = s.committedCount + countPracticeInText s.currentTurnText + countPracticeInText ""
    rw [countPractice_empty, Nat.add_zero]
    exact h
  | msg m =>
    obtain ⟨it, tc, ad⟩ := m
    cases it with
    | none =>
      cases tc with
      | false => exact h
      | true =>
        show s.practiceCount
          = s.committedCount + countPracticeInText s.currentTurnText + countPracticeInText ""
        rw [countPractice_empty, Nat.add_zero]
        exact h
    | some t =>
      cases tc with
      | false => rfl
      | true =>
        show s.committedCount + countPracticeInText (s.currentTurnText ++ t)
          = s.committedCount + countPracticeInText (s.currentTurnText ++ t) + countPracticeInText ""
        rw [countPractice_empty, Nat.add_zero]

/-- The committed count never decreases. -/
theorem step_committed_le (s : AppState) (e : Ev) :
    s.committedCount ≤ (step s e).1.committedCount := by
  cases e with
  | openEvt => exact Nat.le_refl _
  | closeEvt => exact Nat.le_refl _
  | errorEvt => exact Nat.le_refl _
  | frame d =>
    cases hg : s.graphConnected <;> simp only [step, hg] <;> exact Nat.le_refl _
  | stop => exact Nat.le_add_right _ _
  | msg m =>
    obtain ⟨it, tc, ad⟩ := m
    cases it <;> cases tc
    · exact Nat.le_refl _
    · exact Nat.le_add_right _ _
    · exact Nat.le_refl _
    · exact Nat.le_add_right _ _

/-- Running a list of completed turns from an empty buffer adds exactly the
per-turn occurrence counts of each turn's concatenated text. -/
theorem run_turns_committed (turns : List (List String)) (s : AppState)
    (h : s.currentTurnText = "") :
    (run s (turnsEvents turns)).committedCount
      = s.committedCount
        + (turns.map (fun ds => countPracticeInText (concatStr ds))).sum := by
  induction turns generalizing s with
  | nil => simp [turnsEvents, run]
  | cons ds rest ih =>
    show (run s (turnEvents ds ++ turnsEvents rest)).committedCount = _
    rw [run_append]
    unfold turnEvents
    rw [run_append]
    have hs1c := runDeltas_committed ds s
    have hs1t := runDeltas_turn ds s
    rw [h, str_empty_append] at hs1t
    set s1 := run s (ds.map (fun t => Ev.msg (deltaMsg t))) with hs1
    have hstep : run s1 [Ev.msg tcMsg] = handleTurnComplete s1 := rfl
    rw [hstep]
    have h2 : (handleTurnComplete s1).currentTurnText = "" := rfl
    rw [ih (handleTurnComplete s1) h2]
    show s1.committedCount + countPracticeInText s1.currentTurnText + _ = _
    rw [hs1c, hs1t]
    simp [Nat.add_assoc]

/-- The last-300 window absorbs re-windowing of its own input. -/
theorem lastChars_append (a b : List Char) :
    (a.drop (a.length - 300) ++ b).drop ((a.drop (a.length - 300) ++ b).length - 300)
      = (a ++ b).drop ((a ++ b).length - 300) := by
  by_cases h : a.length ≤ 300
  · rw [Nat.sub_eq_zero_of_le h, List.drop_zero]
  · push_neg at h
    have hx : (a.drop (a.length - 300)).length = 300 := by
      rw [List.length_drop]; omega
    have h1 : (a.drop (a.length - 300) ++ b).length - 300 = b.length := by
      rw [List.length_append, hx]; omega
    have h2 : (a ++ b).length - 300 = (a.take (a.length - 300)).length + b.length := by
      rw [List.length_append, List.length_take]; omega
    have hsplit := List.take_append_drop (a.length - 300) a
    calc (a.drop (a.length - 300) ++ b).drop ((a.drop (a.length - 300) ++ b).length - 300)
        = (a.drop (a.length - 300) ++ b).drop b.length := by rw [h1]
      _ = (a.take (a.length - 300) ++ (a.drop (a.length - 300) ++ b)).drop
            ((a.take (a.length - 300)).length + b.length) := (List.drop_append _).symm
      _ = (a ++ b).drop ((a ++ b).length - 300) := by
            rw [← List.append_assoc, hsplit, ← h2]

theorem sliceLast300_data (x : String) :
    (sliceLast300 x).data = x.data.drop (x.data.length - 300) := rfl

theorem sliceLast300_len (x : String) : (sliceLast300 x).data.length ≤ 300 := by
  rw [sliceLast300_data, List.length_drop]
  omega

theorem str_eq_of_data (a b : String) (h : a.data = b.data) : a = b := by
  cases a with
  | mk la =>
    cases b with
    | mk lb => cases h; rfl

/-- Transcript accumulation: after any run of messages the preview holds the
last 300 characters of the starting preview plus every transcription text
received, provided the starting preview is already within the window. -/
theorem run_msgs_transcript (ms : List Msg) (s : AppState)
    (hlen : s.transcript.data.length ≤ 300) :
    (run s (ms.map Ev.msg)).transcript.data
      = (s.transcript.data ++ (concatStr (ms.filterMap Msg.inputTranscription)).data).drop
          ((s.transcript.data
            ++ (concatStr (ms.filterMap Msg.inputTranscription)).data).length - 300) := by
  induction ms generalizing s with
  | nil =>
    show s.transcript.data = _
    rw [List.filterMap_nil,
      show (concatStr []).data = [] from rfl, List.append_nil,
      Nat.sub_eq_zero_of_le hlen, List.drop_zero]
  | cons m ms ih =>
    obtain ⟨it, tc, ad⟩ := m
    cases it with
    | none =>
      have htr : (step s (Ev.msg ⟨none, tc, ad⟩)).1.transcript = s.transcript := by
        cases tc <;> rfl
      show (run (step s (Ev.msg ⟨none, tc, ad⟩)).1 (ms.map Ev.msg)).transcript.data = _
      rw [ih _ (by rw [htr]; exact hlen), htr]
      rfl
    | some t =>
      have htr : (step s (Ev.msg ⟨some t, tc, ad⟩)).1.transcript
          = sliceLast300 (s.transcript ++ t) := by
        cases tc <;> rfl
      show (run (step s (Ev.msg ⟨some t, tc, ad⟩)).1 (ms.map Ev.msg)).transcript.data = _
      rw [ih _ (by rw [htr]; exact sliceLast300_len _), htr, sliceLast300_data,
        str_data_append]
      have key := lastChars_append (s.transcript.data ++ t.data)
        ((concatStr (ms.filterMap Msg.inputTranscription)).data)
      rw [key, List.append_assoc]
      have hcc : (concatStr (List.filterMap Msg.inputTranscription (⟨some t, tc, ad⟩ :: ms))).data
          = t.data ++ (concatStr (ms.filterMap Msg.inputTranscription)).data := by
        show (concatStr (t :: ms.filterMap Msg.inputTranscription)).data = _
        show (t ++ concatStr (ms.filterMap Msg.inputTranscription)).data = _
        rw [str_data_append]
      rw [hcc]

/-! ## Codec lemmas -/

theorem b64Char_ne_pad : ∀ n, n < 64 → b64Char n ≠ '=' := by decide

theorem b64Index_b64Char : ∀ n, n < 64 → b64Index (b64Char n) = some n := by decide

/-- Base64 round-trip: `atob ∘ btoa` is the identity on byte lists. -/
theorem decode_encode : ∀ bs : List Nat, (∀ b ∈ bs, b < 256) → decode (encode bs) = some bs
  | [], _ => rfl
  | [a], h => by
    have ha : a < 256 := h a (by simp)
    have h1 : a / 4 < 64 := by omega
    have h2 : a % 4 * 16 < 64 := by omega
    show decode [b64Char (a / 4), b64Char (a % 4 * 16), '=', '='] = some [a]
    simp only [decode]
    rw [if_pos (by simp), b64Index_b64Char _ h1, b64Index_b64Char _ h2]
    show some [a / 4 * 4 + a % 4 * 16 / 16] = some [a]
    rw [show a / 4 * 4 + a % 4 * 16 / 16 = a by omega]
  | [a, b], h => by
    have ha : a < 256 := h a (by simp)
    have hb : b < 256 := h b (by simp)
    have h1 : a / 4 < 64 := by omega
    have h2 : a % 4 * 16 + b / 16 < 64 := by omega
    have h3 : b % 16 * 4 < 64 := by omega
    show decode [b64Char (a / 4), b64Char (a % 4 * 16 + b / 16), b64Char (b % 16 * 4), '=']
      = some [a, b]
    simp only [decode]
    rw [if_neg (fun hc => b64Char_ne_pad _ h3 hc.1), if_pos (by simp),
      b64Index_b64Char _ h1, b64Index_b64Char _ h2, b64Index_b64Char _ h3]
    show some [a / 4 * 4 + (a % 4 * 16 + b / 16) / 16,
               (a % 4 * 16 + b / 16) % 16 * 16 + b % 16 * 4 / 4] = some [a, b]
    rw [show a / 4 * 4 + (a % 4 * 16 + b / 16) / 16 = a by omega,
      show (a % 4 * 16 + b / 16) % 16 * 16 + b % 16 * 4 / 4 = b by omega]
  | a :: b :: c :: rest, h => by
    have ha : a < 256 := h a (by simp)
    have hb : b < 256 := h b (by simp)
    have hc : c < 256 := h c (by simp)
    have h1 : a / 4 < 64 := by omega
    have h2 : a % 4 * 16 + b / 16 < 64 := by omega
    have h3 : b % 16 * 4 + c / 64 < 64 := by omega
    have h4 : c % 64 < 64 := by omega
    have htail : ∀ x ∈ rest, x < 256 := fun x hx => h x (by simp [hx])
    show decode (b64Char (a / 4) :: b64Char (a % 4 * 16 + b / 16) ::
        b64Char (b % 16 * 4 + c / 64) :: b64Char (c % 64) :: encode rest)
      = some (a :: b :: c :: rest)
    simp only [decode]
    rw [if_neg (fun hcon => b64Char_ne_pad _ h3 hcon.1),
      if_neg (fun hcon => b64Char_ne_pad _ h4 hcon.1),
      b64Index_b64Char _ h1, b64Index_b64Char _ h2, b64Index_b64Char _ h3,
      b64Index_b64Char _ h4, decode_encode rest htail]
    show some ([a / 4 * 4 + (a % 4 * 16 + b / 16) / 16,
                (a % 4 * 16 + b / 16) % 16 * 16 + (b % 16 * 4 + c / 64) / 4,
                (b % 16 * 4 + c / 64) % 4 * 64 + c % 64] ++ rest)
      = some (a :: b :: c :: rest)
    rw [show a / 4 * 4 + (a % 4 * 16 + b / 16) / 16 = a by omega,
      show (a % 4 * 16 + b / 16) % 16 * 16 + (b % 16 * 4 + c / 64) / 4 = b by omega,
      show (b % 16 * 4 + c / 64) % 4 * 64 + c % 64 = c by omega]
    rfl

/-- The byte view of a 16-bit buffer contains only bytes. -/
theorem int16ToBytes_lt (vs : List Int) : ∀ b ∈ int16ToBytes vs, b < 256 := by
  induction vs with
  | nil => simp [int16ToBytes]
  | cons v rest ih =>
    intro b hb
    have hu : (v % 65536).toNat < 65536 := by omega
    simp only [int16ToBytes, List.mem_cons] at hb
    rcases hb with rfl | rfl | hb
    · omega
    · omega
    · exact ih b hb

theorem int16ToBytes_length (vs : List Int) :
    (int16ToBytes vs).length = 2 * vs.length := by
  induction vs with
  | nil => rfl
  | cons v rest ih =>
    show (int16ToBytes rest).length + 1 + 1 = 2 * (rest.length + 1)
    omega

theorem bytesToInt16_length : ∀ bs : List Nat, (bytesToInt16 bs).length = bs.length / 2
  | [] => by simp [bytesToInt16]
  | [b] => by simp [bytesToInt16]
  | b0 :: b1 :: rest => by
    show (bytesToInt16 rest).length + 1 = (rest.length + 1 + 1) / 2
    rw [bytesToInt16_length rest]
    omega

/-- The 16-bit little-endian byte round-trip is the identity on in-range
values. -/
theorem bytesToInt16_int16ToBytes (vs : List Int)
    (h : ∀ v ∈ vs, -32768 ≤ v ∧ v < 32768) :
    bytesToInt16 (int16ToBytes vs) = vs := by
  induction vs with
  | nil => rfl
  | cons v rest ih =>
    have hv := h v (List.mem_cons_self _ _)
    show toSigned16 ((v % 65536).toNat % 256 + 256 * ((v % 65536).toNat / 256))
        :: bytesToInt16 (int16ToBytes rest) = v :: rest
    rw [ih (fun x hx => h x (List.mem_cons_of_mem _ hx))]
    congr 1
    unfold toSigned16
    split <;> omega

theorem map_range_getD (l : List Int) (f : Int → ℚ) :
    (List.range l.length).map (fun i => f (l.getD i 0)) = l.map f := by
  apply List.ext_getElem
  · simp
  · intro i h1 h2
    simp only [List.getElem_map, List.getElem_range]
    rw [List.getD_eq_getElem _ _ (by simpa using h2)]

/-- Let-free restatement of `decodeAudioData` (definitional). -/
theorem decodeAudioData_eq (bytes : List Nat) (nc : Nat) :
    decodeAudioData bytes nc
      = if bytes.length % 2 ≠ 0 then .error .rangeError
        else if (bytesToInt16 bytes).length / nc = 0 then .error .notSupported
        else .ok ((List.range nc).map (fun ch =>
          (List.range ((bytesToInt16 bytes).length / nc)).map
            (fun i => (((bytesToInt16 bytes).getD (i * nc + ch) 0 : Int) : ℚ) / 32768))) := rfl

/-- Successful single-channel decode of an encoded 16-bit buffer. -/
theorem decodeAudioData_ok (vs : List Int) (hne : vs ≠ [])
    (h : ∀ v ∈ vs, -32768 ≤ v ∧ v < 32768) :
    decodeAudioData (int16ToBytes vs) 1
      = .ok [vs.map (fun v => ((v : Int) : ℚ) / 32768)] := by
  rw [decodeAudioData_eq]
  rw [if_neg (by rw [int16ToBytes_length]; omega), bytesToInt16_int16ToBytes vs h]
  rw [if_neg (by
    rw [Nat.div_one]
    simpa using fun hl => hne (List.length_eq_zero.mp hl))]
  rw [show List.range 1 = [0] by decide]
  simp only [List.map_cons, List.map_nil, Nat.div_one]
  have hf : (fun i => ((vs.getD (i * 1 + 0) 0 : Int) : ℚ) / 32768)
      = (fun i => ((vs.getD i 0 : Int) : ℚ) / 32768) := by
    funext i
    rw [Nat.mul_one, Nat.add_zero]
  rw [hf, map_range_getD vs (fun v => ((v : Int) : ℚ) / 32768)]

/-- Characterization of the decode failure modes. -/
theorem decodeAudioData_error_iff (bytes : List Nat) (nc : Nat) :
    (∃ e, decodeAudioData bytes nc = .error e)
      ↔ (bytes.length % 2 = 1 ∨ bytes.length / 2 / nc = 0) := by
  rw [decodeAudioData_eq]
  rcases Nat.mod_two_eq_zero_or_one bytes.length with h | h
  · rw [if_neg (by omega), bytesToInt16_length]
    by_cases h2 : bytes.length / 2 / nc = 0
    · rw [if_pos h2]
      simp [h2]
    · rw [if_neg h2]
      simp [h2]
      omega
  · rw [if_pos (by omega)]
    simp [h]

/-- A successful decode yields `nc` channels of `⌊(len/2)/nc⌋` frames. -/
theorem decodeAudioData_frames (bytes : List Nat) (nc : Nat) (chans : List (List ℚ))
    (h : decodeAudioData bytes nc = .ok chans) :
    chans.length = nc ∧ ∀ c ∈ chans, c.length = bytes.length / 2 / nc := by
  rw [decodeAudioData_eq] at h
  rcases Nat.mod_two_eq_zero_or_one bytes.length with hp | hp
  · rw [if_neg (by omega)] at h
    by_cases h2 : (bytesToInt16 bytes).length / nc = 0
    · rw [if_pos h2] at h
      cases h
    · rw [if_neg h2] at h
      obtain rfl : _ = chans := (Except.ok.inj h)
      constructor
      · simp
      · intro c hc
        rw [List.mem_map] at hc
        obtain ⟨ch, _, rfl⟩ := hc
        rw [List.length_map, List.length_range, bytesToInt16_length]
  · rw [if_pos (by omega)] at h
    cases h

theorem jsTrunc_err (x : ℚ) : |x - (jsTrunc x : ℚ)| < 1 := by
  unfold jsTrunc
  split
  · rw [abs_of_nonneg (by linarith [Int.floor_le x])]
    linarith [Int.lt_floor_add_one x]
  · rw [abs_of_nonpos (by linarith [Int.le_ceil x])]
    linarith [Int.ceil_lt_add_one x]

/-- Wrap characterization of the `ToInt16` store. -/
theorem toInt16_wrap (x : ℚ) :
    -32768 ≤ toInt16 x ∧ toInt16 x < 32768 ∧ (toInt16 x - jsTrunc x) % 65536 = 0 := by
  unfold toInt16
  dsimp only
  split <;> omega

/-- On in-range samples the `ToInt16` store does not wrap. -/
theorem encodeSample_in_range (s : ℚ) (h1 : -1 ≤ s) (h2 : s < 1) :
    encodeSample s = jsTrunc (s * 32768)
      ∧ -32768 ≤ jsTrunc (s * 32768) ∧ jsTrunc (s * 32768) ≤ 32767 := by
  have hlb : (-32768 : ℚ) ≤ s * 32768 := by linarith
  have hub : s * 32768 < 32768 := by linarith
  have hl : -32768 ≤ jsTrunc (s * 32768) := by
    unfold jsTrunc
    split
    · exact Int.le_floor.mpr (by exact_mod_cast hlb)
    · have := Int.le_ceil (s * 32768)
      exact_mod_cast le_trans hlb this
  have hu : jsTrunc (s * 32768) ≤ 32767 := by
    unfold jsTrunc
    split
    · have : ⌊s * 32768⌋ < 32768 := Int.floor_lt.mpr (by exact_mod_cast hub)
      omega
    · have : ⌈s * 32768⌉ ≤ 32767 := Int.ceil_le.mpr (by norm_num; linarith)
      exact this
  refine ⟨?_, hl, hu⟩
  unfold encodeSample toInt16
  dsimp only
  split <;> omega

/-- Per-sample quantization error bound of the encode/decode pair. -/
theorem decoded_err (s : ℚ) (h1 : -1 ≤ s) (h2 : s < 1) :
    |((encodeSample s : Int) : ℚ) / 32768 - s| ≤ 1 / 32768 := by
  obtain ⟨heq, _, _⟩ := encodeSample_in_range s h1 h2
  rw [heq]
  have herr := jsTrunc_err (s * 32768)
  rw [abs_sub_comm] at herr
  have hsplit : ((jsTrunc (s * 32768) : Int) : ℚ) / 32768 - s
      = (((jsTrunc (s * 32768) : Int) : ℚ) - s * 32768) / 32768 := by ring
  rw [hsplit, abs_div, abs_of_pos (by norm_num : (0 : ℚ) < 32768)]
  have h32 : (0 : ℚ) < 32768 := by norm_num
  rw [div_le_div_iff₀ h32 (by norm_num : (0 : ℚ) < 32768)]
  nlinarith [le_of_lt herr, abs_nonneg (((jsTrunc (s * 32768) : Int) : ℚ) - s * 32768)]

/-! ### Concrete codec evaluations (kernel `decide` cannot normalize `ℚ`) -/

theorem jsTrunc_32768 : jsTrunc ((1 : ℚ) * 32768) = 32768 := by
  unfold jsTrunc
  rw [if_pos (by norm_num)]
  norm_num

theorem jsTrunc_one_32767 : jsTrunc ((1 : ℚ) * 32767) = 32767 := by
  unfold jsTrunc
  rw [if_pos (by norm_num)]
  norm_num

theorem jsTrunc_three_halves : jsTrunc ((3 / 2 : ℚ) * 32768) = 49152 := by
  unfold jsTrunc
  rw [if_pos (by norm_num)]
  norm_num

theorem encodeSample_one : encodeSample 1 = -32768 := by
  unfold encodeSample toInt16
  rw [jsTrunc_32768]
  decide

theorem encodeSample_three_halves : encodeSample (3 / 2) = -16384 := by
  unfold encodeSample toInt16
  rw [jsTrunc_three_halves]
  decide

theorem decodeAudioData_0_128 : decodeAudioData [0, 128] 1 = .ok [[(-1 : ℚ)]] := by
  rw [show ([0, 128] : List Nat) = int16ToBytes [-32768] by decide]
  rw [decodeAudioData_ok [-32768] (by simp)
    (by intro v hv; simp at hv; subst hv; exact ⟨by decide, by decide⟩)]
  show Except.ok [[((-32768 : Int) : ℚ) / 32768]] = Except.ok [[(-1 : ℚ)]]
  norm_num

/-! ## Claim theorems -/

/-- C1: at every point the externally-reported count equals
`committed + occurrences(turnBuffer)` (established initially and preserved
by every event), `committed` only increases, it advances by exactly
`occurrences(turnBuffer)` at turn-completion and at session stop after which
the buffer is reset to empty, and over any sequence of completed turns each
turn's text is committed exactly once. -/
theorem c1_count_state_invariant :
    Inv initState ∧
    (∀ s e, Inv s → Inv (step s e).1) ∧
    (∀ s e, s.committedCount ≤ (step s e).1.committedCount) ∧
    (∀ s, (step s (Ev.msg tcMsg)).1.committedCount
            = s.committedCount + countPracticeInText s.currentTurnText
          ∧ (step s (Ev.msg tcMsg)).1.currentTurnText = "") ∧
    (∀ s, (step s Ev.stop).1.committedCount
            = s.committedCount + countPracticeInText s.currentTurnText
          ∧ (step s Ev.stop).1.currentTurnText = "") ∧
    (∀ s turns, s.currentTurnText = "" →
      (run s (turnsEvents turns)).committedCount
        = s.committedCount
          + (turns.map (fun ds => countPracticeInText (concatStr ds))).sum) :=
  ⟨rfl, inv_step, step_committed_le, fun _ => ⟨rfl, rfl⟩, fun _ => ⟨rfl, rfl⟩,
    fun s turns h => run_turns_committed turns s h⟩

/-- Witness for C1: the invariant is preserved through the spec's
abrupt-stop scenario — deltas `["practice practice"]` with no turn-complete,
then stop, commits exactly 2. -/
theorem c1_count_state_invariant_witness :
    Inv (step (run startedState [Ev.msg (deltaMsg "practice practice")]) Ev.stop).1 ∧
    (step (run startedState [Ev.msg (deltaMsg "practice practice")]) Ev.stop).1.committedCount
      = 2 := by
  obtain ⟨h1, h2, h3, h4, h5, h6⟩ := c1_count_state_invariant
  constructor
  · exact h2 _ Ev.stop (h2 startedState (Ev.msg (deltaMsg "practice practice")) rfl)
  · rw [(h5 (run startedState [Ev.msg (deltaMsg "practice practice")])).1]
    decide

/-- C2: within a single turn (delta-only messages, no turn-complete), the
reported count after the deltas equals the committed count at the start of
the turn plus the whole-word case-insensitive occurrences of the keyword in
the concatenation of all deltas so far — the buffer is rescanned in full, so
occurrences split across deltas are counted. -/
theorem c2_reported_count_rescans_full_buffer :
    ∀ (s : AppState) (ds : List String), s.currentTurnText = "" → ds ≠ [] →
      (run s (ds.map (fun t => Ev.msg (deltaMsg t)))).practiceCount
        = s.committedCount + countPracticeInText (concatStr ds) ∧
      (run s (ds.map (fun t => Ev.msg (deltaMsg t)))).committedCount
        = s.committedCount := by
  intro s ds h hne
  refine ⟨?_, runDeltas_committed ds s⟩
  rw [runDeltas_count ds s hne, h, str_empty_append]

/-- Witness for C2: the keyword split across the deltas `"prac"`/`"tice"`
is still counted — the reported count is 1. -/
theorem c2_reported_count_rescans_full_buffer_witness :
    (run startedState (["prac", "tice"].map (fun t => Ev.msg (deltaMsg t)))).practiceCount
      = startedState.committedCount + countPracticeInText (concatStr ["prac", "tice"]) ∧
    startedState.committedCount + countPracticeInText (concatStr ["prac", "tice"]) = 1 :=
  ⟨(c2_reported_count_rescans_full_buffer startedState ["prac", "tice"] rfl
      (by simp)).1, by decide⟩

/-- C6 (amended): on a transport error the `onerror` callback surfaces a
user-visible error message, clears the recording flag, emits nothing (in
particular no reconnection attempt), and leaves the session ref and the
counter untouched — but contrary to the original claim it does NOT release
any held resource: the microphone stream, audio nodes, graph connection and
both context refs are all left exactly as they were. -/
theorem c6_transport_error_surfaces_without_release :
    ∀ s : AppState,
      (step s Ev.errorEvt).1.error = some "Connection error detected." ∧
      (step s Ev.errorEvt).1.isRecording = false ∧
      (step s Ev.errorEvt).2 = [] ∧
      (step s Ev.errorEvt).1.sessionRef = s.sessionRef ∧
      (step s Ev.errorEvt).1.mediaStreamRef = s.mediaStreamRef ∧
      (step s Ev.errorEvt).1.inputCtxRef = s.inputCtxRef ∧
      (step s Ev.errorEvt).1.outputCtxRef = s.outputCtxRef ∧
      (step s Ev.errorEvt).1.sourceRef = s.sourceRef ∧
      (step s Ev.errorEvt).1.processorRef = s.processorRef ∧
      (step s Ev.errorEvt).1.graphConnected = s.graphConnected ∧
      (step s Ev.errorEvt).1.committedCount = s.committedCount ∧
      (step s Ev.errorEvt).1.currentTurnText = s.currentTurnText :=
  fun _ => ⟨rfl, rfl, rfl, rfl, rfl, rfl, rfl, rfl, rfl, rfl, rfl, rfl⟩

/-- Counterexample to C6 as stated: in an open session (start then open),
a transport error leaves the microphone stream, both audio contexts and the
audio nodes still held — the claim that all held resources are released on
transport error is false. -/
theorem c6_counterexample :
    (step (run startedState [Ev.openEvt]) Ev.errorEvt).1.mediaStreamRef = true ∧
    (step (run startedState [Ev.openEvt]) Ev.errorEvt).1.inputCtxRef = true ∧
    (step (run startedState [Ev.openEvt]) Ev.errorEvt).1.outputCtxRef = true ∧
    (step (run startedState [Ev.openEvt]) Ev.errorEvt).1.sourceRef = true ∧
    (step (run startedState [Ev.openEvt]) Ev.errorEvt).1.processorRef = true := by
  decide

/-- C8: `stopSession` is idempotent — a second stop (after a completed
stop) is a complete no-op on the state (committed count, turn buffer and
every resource ref included), emits nothing and raises no error. -/
theorem c8_stop_idempotent :
    ∀ s : AppState, step (step s Ev.stop).1 Ev.stop = ((step s Ev.stop).1, []) :=
  fun _ => rfl

/-- C9: `stopSession` releases exactly the local audio resources (stream,
nodes, contexts) and flushes the counter, while the stored session ref is
retained unmodified; moreover no event of the state machine ever emits a
close of the remote session. -/
theorem c9_stop_keeps_remote_session :
    ∀ s : AppState,
      (stopSession s).sessionRef = s.sessionRef ∧
      (stopSession s).mediaStreamRef = false ∧
      (stopSession s).inputCtxRef = false ∧
      (stopSession s).outputCtxRef = false ∧
      (stopSession s).sourceRef = false ∧
      (stopSession s).processorRef = false ∧
      (stopSession s).committedCount
        = s.committedCount + countPracticeInText s.currentTurnText ∧
      (stopSession s).currentTurnText = "" ∧
      (∀ e o, o ∈ (step s e).2 → o ≠ Out.closeSession) := by
  intro s
  refine ⟨rfl, rfl, rfl, rfl, rfl, rfl, rfl, rfl, ?_⟩
  intro e o ho
  rcases step_out_cases s e o ho with ⟨b, rfl⟩ | ⟨ch, rfl⟩ <;> simp

/-- Witness for C9: stopping the started session keeps the stored session
ref, and a concrete emitted output (the playback of a decoded chunk) is not
a close of the remote session. -/
theorem c9_stop_keeps_remote_session_witness :
    (stopSession startedState).sessionRef = startedState.sessionRef ∧
    Out.play [[(-1 : ℚ)]] ≠ Out.closeSession := by
  have hout : (step startedState (Ev.msg ⟨none, false, some (encode [0, 128])⟩)).2
      = [Out.play [[(-1 : ℚ)]]] := by
    show msgOuts ⟨none, false, some (encode [0, 128])⟩ = _
    simp only [msgOuts]
    rw [show decode (encode [0, 128]) = some [0, 128] by decide]
    have h3 : (match decodeAudioData [0, 128] 1 with
      | Except.error _ => ([] : List Out)
      | Except.ok chans => [Out.play chans]) = [Out.play [[(-1 : ℚ)]]] := by
      rw [decodeAudioData_0_128]
    exact h3
  have h := c9_stop_keeps_remote_session startedState
  refine ⟨h.1, ?_⟩
  exact h.2.2.2.2.2.2.2.2 (Ev.msg ⟨none, false, some (encode [0, 128])⟩)
    (Out.play [[(-1 : ℚ)]]) (by rw [hout]; exact List.mem_cons_self _ _)

/-- C10: starting from an empty preview, after any sequence of messages the
transcript preview equals the last 300 characters of the concatenation of
all transcription texts received, hence never exceeds 300 characters; and
the transcript field has no influence on the committed count or the turn
buffer. -/
theorem c10_transcript_window_300 :
    (∀ (s : AppState) (ms : List Msg), s.transcript = "" →
      (run s (ms.map Ev.msg)).transcript
        = sliceLast300 (concatStr (ms.filterMap Msg.inputTranscription))) ∧
    (∀ (s : AppState) (ms : List Msg), s.transcript = "" →
      (run s (ms.map Ev.msg)).transcript.data.length ≤ 300) ∧
    (∀ (s : AppState) (e : Ev) (t' : String),
      (step { s with transcript := t' } e).1.committedCount
        = (step s e).1.committedCount ∧
      (step { s with transcript := t' } e).1.currentTurnText
        = (step s e).1.currentTurnText) := by
  have main : ∀ (s : AppState) (ms : List Msg), s.transcript = "" →
      (run s (ms.map Ev.msg)).transcript
        = sliceLast300 (concatStr (ms.filterMap Msg.inputTranscription)) := by
    intro s ms h
    apply str_eq_of_data
    rw [run_msgs_transcript ms s (by rw [h]; decide), h, sliceLast300_data,
      show ("" : String).data = [] from rfl, List.nil_append]
  refine ⟨main, fun s ms h => ?_, fun s e t' => ?_⟩
  · rw [main s ms h]
    exact sliceLast300_len _
  · cases e with
    | openEvt => exact ⟨rfl, rfl⟩
    | closeEvt => exact ⟨rfl, rfl⟩
    | errorEvt => exact ⟨rfl, rfl⟩
    | stop => exact ⟨rfl, rfl⟩
    | frame d => cases hg : s.graphConnected <;> simp [step, hg]
    | msg m =>
      obtain ⟨it, tc, ad⟩ := m
      cases it with
      | none =>
        cases tc with
        | false => constructor <;> rfl
        | true =>
          constructor
          · show (handleTurnComplete { s with transcript := t' }).committedCount
              = (handleTurnComplete s).committedCount
            rfl
          · show (handleTurnComplete { s with transcript := t' }).currentTurnText
              = (handleTurnComplete s).currentTurnText
            rfl
      | some t =>
        cases tc with
        | false =>
          constructor
          · show (handleDelta { s with transcript := t' } t).committedCount
              = (handleDelta s t).committedCount
            rfl
          · show (handleDelta { s with transcript := t' } t).currentTurnText
              = (handleDelta s t).currentTurnText
            rfl
        | true =>
          constructor
          · show (handleTurnComplete (handleDelta { s with transcript := t' } t)).committedCount
              = (handleTurnComplete (handleDelta s t)).committedCount
            rfl
          · show (handleTurnComplete (handleDelta { s with transcript := t' } t)).currentTurnText
              = (handleTurnComplete (handleDelta s t)).currentTurnText
            rfl

/-- C3 (amended): for every nonempty frame whose samples lie in the
half-open interval `[-1, 1)`, decoding the encoded frame at channel count 1
yields one channel whose samples are the quantized originals, each within
`1/32768` of the original sample.  (At sample `1.0` exactly, the scale
`s * 32768` wraps to `-32768` and the bound fails; see the
counterexample.) -/
theorem c3_roundtrip_quantization :
    ∀ frame : List ℚ, frame ≠ [] → (∀ s ∈ frame, -1 ≤ s ∧ s < 1) →
      (decode (createBlob frame).data).bind
          (fun bytes => (decodeAudioData bytes 1).toOption)
        = some [frame.map (fun s => ((encodeSample s : Int) : ℚ) / 32768)] ∧
      ∀ i, i < frame.length →
        |(frame.map (fun s => ((encodeSample s : Int) : ℚ) / 32768)).getD i 0
            - frame.getD i 0| ≤ 1 / 32768 := by
  intro frame hne hb
  have hbounds : ∀ v ∈ frame.map encodeSample, -32768 ≤ v ∧ v < 32768 := by
    intro v hv
    rw [List.mem_map] at hv
    obtain ⟨s, hs, rfl⟩ := hv
    obtain ⟨heq, hl, hu⟩ := encodeSample_in_range s (hb s hs).1 (hb s hs).2
    rw [heq]
    exact ⟨hl, by omega⟩
  constructor
  · show (decode (encode (int16ToBytes (frame.map encodeSample)))).bind _ = _
    rw [decode_encode _ (int16ToBytes_lt _)]
    show (decodeAudioData (int16ToBytes (frame.map encodeSample)) 1).toOption = _
    rw [decodeAudioData_ok (frame.map encodeSample) (by simpa using hne) hbounds]
    show some [(frame.map encodeSample).map (fun v => ((v : Int) : ℚ) / 32768)] = _
    rw [List.map_map]
    rfl
  · intro i hi
    have hi' : i < (frame.map (fun s => ((encodeSample s : Int) : ℚ) / 32768)).length := by
      simpa using hi
    rw [List.getD_eq_getElem _ _ hi', List.getD_eq_getElem _ _ hi, List.getElem_map]
    exact decoded_err (frame[i]) (hb _ (List.getElem_mem _)).1
      (hb _ (List.getElem_mem _)).2

/-- Witness for C3: the frame `[1/2, -1/3]` is nonempty with samples in
`[-1, 1)`, and it round-trips within `1/32768` per sample. -/
theorem c3_roundtrip_quantization_witness :
    (([(1 : ℚ)/2, -1/3] : List ℚ) ≠ [] ∧ (∀ s ∈ [(1 : ℚ)/2, -1/3], -1 ≤ s ∧ s < 1)) ∧
    ((decode (createBlob [(1 : ℚ)/2, -1/3]).data).bind
        (fun bytes => (decodeAudioData bytes 1).toOption)
      = some [([(1 : ℚ)/2, -1/3]).map (fun s => ((encodeSample s : Int) : ℚ) / 32768)] ∧
    ∀ i, i < ([(1 : ℚ)/2, -1/3]).length →
      |(([(1 : ℚ)/2, -1/3]).map (fun s => ((encodeSample s : Int) : ℚ) / 32768)).getD i 0
          - ([(1 : ℚ)/2, -1/3]).getD i 0| ≤ 1 / 32768) :=
  ⟨⟨by simp, by
      intro s hs
      simp only [List.mem_cons, List.not_mem_nil, or_false] at hs
      rcases hs with rfl | rfl
      · exact ⟨by norm_num, by norm_num⟩
      · exact ⟨by norm_num, by norm_num⟩⟩,
    c3_roundtrip_quantization [(1 : ℚ)/2, -1/3] (by simp) (by
      intro s hs
      simp only [List.mem_cons, List.not_mem_nil, or_false] at hs
      rcases hs with rfl | rfl
      · exact ⟨by norm_num, by norm_num⟩
      · exact ⟨by norm_num, by norm_num⟩)⟩

/-- Counterexample to C3 as stated: the frame `[1.0]` has its sample in the
claimed closed interval `[-1, 1]`, but `1.0 * 32768 = 32768` wraps in the
`Int16Array` store to `-32768`; the decoded frame is `[-1.0]` and the error
is 2, far above `1/32768`. -/
theorem c3_counterexample :
    (decode (createBlob [(1 : ℚ)]).data).bind
        (fun bytes => (decodeAudioData bytes 1).toOption)
      = some [[(-1 : ℚ)]] ∧
    ¬ (|(-1 : ℚ) - 1| ≤ 1 / 32768) := by
  constructor
  · show (decode (encode (int16ToBytes ([(1 : ℚ)].map encodeSample)))).bind
        (fun bytes => (decodeAudioData bytes 1).toOption) = some [[(-1 : ℚ)]]
    rw [show [(1 : ℚ)].map encodeSample = [-32768] by simp [encodeSample_one]]
    rw [decode_encode _ (int16ToBytes_lt _)]
    show (decodeAudioData (int16ToBytes [-32768]) 1).toOption = some [[(-1 : ℚ)]]
    rw [decodeAudioData_ok [-32768] (by simp)
      (by intro v hv; simp at hv; subst hv; exact ⟨by decide, by decide⟩)]
    show some [[((-32768 : Int) : ℚ) / 32768]] = some [[(-1 : ℚ)]]
    norm_num
  · rw [show ((-1 : ℚ) - 1) = -2 by norm_num, abs_neg,
      abs_of_nonneg (by norm_num : (0 : ℚ) ≤ 2)]
    norm_num

/-- C4 (amended): `createBlob` tags its output with the fixed descriptor
`audio/pcm;rate=16000` and base64-encodes the little-endian byte packing of
the per-sample 16-bit values; each per-sample value is total and
deterministic (it is a function), lies in the signed 16-bit range, and is
congruent modulo 2^16 to the truncation of `sample * 32768` — i.e.
out-of-range samples wrap modulo 2^16 rather than clamp, and no input
raises an error. -/
theorem c4_encode_structure :
    ∀ frame : List ℚ,
      (createBlob frame).mimeType = "audio/pcm;rate=16000" ∧
      decode (createBlob frame).data = some (int16ToBytes (frame.map encodeSample)) ∧
      ∀ s : ℚ, -32768 ≤ encodeSample s ∧ encodeSample s < 32768 ∧
        (encodeSample s - jsTrunc (s * 32768)) % 65536 = 0 :=
  fun frame =>
    ⟨rfl, decode_encode _ (int16ToBytes_lt _), fun s => toInt16_wrap (s * 32768)⟩

/-- Counterexample to C4 as stated: the code scales by 32768 (not
32767/32768) and wraps rather than clamps.  At sample `1.0` the claimed
scaling gives 32767 but the code produces `-32768`; at the out-of-range
sample `1.5` a clamp would give 32767 but the code wraps
`trunc(1.5 * 32768) = 49152` to `-16384`. -/
theorem c4_counterexample :
    encodeSample 1 = -32768 ∧ jsTrunc ((1 : ℚ) * 32767) = 32767 ∧
    encodeSample (3/2) = -16384 ∧
    max (-32768) (min 32767 (jsTrunc ((3/2 : ℚ) * 32768))) = 32767 ∧
    (-32768 : Int) ≠ 32767 ∧ (-16384 : Int) ≠ 32767 :=
  ⟨encodeSample_one, jsTrunc_one_32767, encodeSample_three_halves,
    by rw [jsTrunc_three_halves]; decide, by decide, by decide⟩

/-- C5 (amended): `decodeAudioData` fails exactly when the byte length is
odd (`RangeError` from the `Int16Array` view) or the truncated frame count
`⌊(len/2)/channelCount⌋` is zero (`NotSupportedError` from `createBuffer`);
an even byte length that is not a multiple of `2 * channelCount` is
silently truncated to whole frames, not rejected.  A successful decode
yields `channelCount` channels of `⌊(len/2)/channelCount⌋` frames (equal to
`totalSamples / channelCount` when the division is exact).  A malformed
chunk is dropped without terminating the session — the state is unchanged
and playback is skipped — and a subsequent valid chunk still decodes and
plays. -/
theorem c5_decode_failure_containment :
    (∀ (bytes : List Nat) (nc : Nat),
      (∃ e, decodeAudioData bytes nc = .error e)
        ↔ (bytes.length % 2 = 1 ∨ bytes.length / 2 / nc = 0)) ∧
    (∀ (bytes : List Nat) (nc : Nat) (chans : List (List ℚ)),
      decodeAudioData bytes nc = .ok chans →
        chans.length = nc ∧ ∀ c ∈ chans, c.length = bytes.length / 2 / nc) ∧
    (∀ (s : AppState) (b64 : List Char), decode b64 = none →
      step s (Ev.msg ⟨none, false, some b64⟩) = (s, [])) ∧
    (∀ (s : AppState) (b64 : List Char) (bytes : List Nat) (e : DecodeErr),
      decode b64 = some bytes → decodeAudioData bytes 1 = .error e →
      step s (Ev.msg ⟨none, false, some b64⟩) = (s, [])) ∧
    (∀ (s : AppState) (b64 : List Char) (bytes : List Nat) (chans : List (List ℚ)),
      decode b64 = some bytes → decodeAudioData bytes 1 = .ok chans →
      step s (Ev.msg ⟨none, false, some b64⟩) = (s, [Out.play chans])) := by
  refine ⟨decodeAudioData_error_iff, decodeAudioData_frames, ?_, ?_, ?_⟩
  · intro s b64 hd
    have h2 : msgOuts ⟨none, false, some b64⟩ = [] := by
      simp only [msgOuts]
      rw [hd]
    show (msgState s ⟨none, false, some b64⟩, msgOuts ⟨none, false, some b64⟩) = (s, [])
    rw [h2]
    rfl
  · intro s b64 bytes e hd hk
    have h2 : msgOuts ⟨none, false, some b64⟩ = [] := by
      simp only [msgOuts]
      rw [hd]
      have h3 : (match decodeAudioData bytes 1 with
        | Except.error _ => ([] : List Out)
        | Except.ok chans => [Out.play chans]) = [] := by rw [hk]
      exact h3
    show (msgState s ⟨none, false, some b64⟩, msgOuts ⟨none, false, some b64⟩) = (s, [])
    rw [h2]
    rfl
  · intro s b64 bytes chans hd hk
    have h2 : msgOuts ⟨none, false, some b64⟩ = [Out.play chans] := by
      simp only [msgOuts]
      rw [hd]
      have h3 : (match decodeAudioData bytes 1 with
        | Except.error _ => ([] : List Out)
        | Except.ok chans => [Out.play chans]) = [Out.play chans] := by rw [hk]
      exact h3
    show (msgState s ⟨none, false, some b64⟩, msgOuts ⟨none, false, some b64⟩)
      = (s, [Out.play chans])
    rw [h2]
    rfl

/-- Witness for C5: the one-byte chunk `"AA=="` (odd byte length) is
dropped with the state unchanged, while the valid two-byte chunk `"AIA="`
decodes to one frame and plays. -/
theorem c5_decode_failure_containment_witness :
    step initState (Ev.msg ⟨none, false, some (encode [0])⟩) = (initState, []) ∧
    step initState (Ev.msg ⟨none, false, some (encode [0, 128])⟩)
      = (initState, [Out.play [[(-1 : ℚ)]]]) := by
  obtain ⟨h1, h2, h3, h4, h5⟩ := c5_decode_failure_containment
  exact ⟨h4 initState (encode [0]) [0] DecodeErr.rangeError (by decide) (by decide),
         h5 initState (encode [0, 128]) [0, 128] [[(-1 : ℚ)]] (by decide)
           decodeAudioData_0_128⟩

/-- Counterexample to C5 as stated: with channel count 2, a 10-byte chunk —
whose length is not a multiple of `2 * channelCount = 4` — is NOT rejected:
the fractional frame count 2.5 is silently truncated and the decode
succeeds with 2 frames per channel. -/
theorem c5_counterexample :
    decodeAudioData (List.replicate 10 0) 2
      = .ok [[(0 : ℚ), 0], [(0 : ℚ), 0]] ∧
    ¬ (10 % (2 * 2) = 0) := by
  constructor
  · rw [decodeAudioData_eq, if_neg (by decide), if_neg (by decide),
      show bytesToInt16 (List.replicate 10 0) = [0, 0, 0, 0, 0] by decide,
      show ([0, 0, 0, 0, 0] : List Int).length / 2 = 2 by decide,
      show List.range 2 = [0, 1] by decide]
    simp [List.getD]
  · decide

/-- C7 (amended): no outbound send can occur before the `onopen` callback
runs, because the audio processor is created and connected only inside
`onopen`: from any state with the capture graph detached, a run containing
no open event emits no send at all, and a frame arriving in that state is
dropped without any state change and without anything being queued.  The
source has no `SessionNotReady` signal — pre-open frames are dropped
silently (see the counterexample). -/
theorem c7_no_send_before_open :
    (∀ (s : AppState) (evs : List Ev), s.graphConnected = false →
      (∀ e ∈ evs, e ≠ Ev.openEvt) →
      ∀ b, Out.send b ∉ (runOut s evs).2) ∧
    (∀ (s : AppState) (d : List ℚ), s.graphConnected = false →
      step s (Ev.frame d) = (s, [])) ∧
    startedState.graphConnected = false := by
  refine ⟨?_, ?_, rfl⟩
  · intro s evs
    induction evs generalizing s with
    | nil =>
      intro hg hno b hmem
      simp [runOut] at hmem
    | cons e es ih =>
      intro hg hno b hmem
      have hmem2 : Out.send b ∈ (step s e).2 ++ (runOut (step s e).1 es).2 := hmem
      rcases List.mem_append.mp hmem2 with hin | hin
      · obtain ⟨ch, hch⟩ := step_no_send s e hg _ hin
        exact Out.noConfusion hch
      · exact ih (step s e).1
          (step_graph_off s e (hno e (List.mem_cons_self _ _)) hg)
          (fun e' he' => hno e' (List.mem_cons_of_mem _ he')) b hin
  · intro s d hg
    simp [step, hg]

/-- Witness for C7: from the just-started (still connecting) state, a
captured frame produces no send and no state change. -/
theorem c7_no_send_before_open_witness :
    Out.send (createBlob [(1 : ℚ)/2]) ∉ (runOut startedState [Ev.frame [(1 : ℚ)/2]]).2 ∧
    step startedState (Ev.frame [(1 : ℚ)/2]) = (startedState, []) := by
  obtain ⟨h1, h2, h3⟩ := c7_no_send_before_open
  exact ⟨h1 startedState [Ev.frame [(1 : ℚ)/2]] rfl (by decide) (createBlob [(1 : ℚ)/2]),
         h2 startedState [(1 : ℚ)/2] rfl⟩

/-- Counterexample to C7 as stated: a frame captured before open is dropped
with NO output at all — in particular no `SessionNotReady` signal is
emitted, contrary to the claim that such sends are dropped with a non-fatal
`SessionNotReady` signal. -/
theorem c7_counterexample :
    (runOut startedState [Ev.frame [(1 : ℚ)/2]]).2 = [] ∧
    Out.signalSessionNotReady ∉ (runOut startedState [Ev.frame [(1 : ℚ)/2]]).2 := by
  decide

/-- Witness for C10: a single `"hello"` delta from the initial state leaves
the preview equal to the windowed concatenation, which is `"hello"`. -/
theorem c10_transcript_window_300_witness :
    (run initState ([deltaMsg "hello"].map Ev.msg)).transcript
      = sliceLast300 (concatStr ([deltaMsg "hello"].filterMap Msg.inputTranscription)) ∧
    sliceLast300 (concatStr ([deltaMsg "hello"].filterMap Msg.inputTranscription))
      = "hello" := by
  refine ⟨c10_transcript_window_300.1 initState [deltaMsg "hello"] rfl, ?_⟩
  decide

end VoiceAnalytics
